import Mathlib

/-!
Shallow embedding of the `rustymatch` glob-matching engine (src/lib.rs).

Strings are embedded as `List Char` (the Rust code collects both the input
and the pattern into `Vec<char>` before matching).  The recursive matchers,
which in Rust walk `(input_idx, pattern_idx)` pairs over fixed vectors, are
embedded as functions over the corresponding suffix lists; the one place the
Rust code looks *backwards* in the pattern (`needs_intermediate_directory`
inspects the character just before a `**`) is embedded by threading the
previously consumed pattern character through the recursion as an
`Option Char` argument (`none` at the start of the pattern).
-/

set_option maxHeartbeats 1000000
set_option linter.unusedVariables false
set_option linter.unreachableTactic false
set_option linter.unusedTactic false

/-- The four segment kinds produced by `parse_glob_segments` (src/lib.rs lines 1-7).
`Literal` and `CharClass` carry their text as `List Char`. -/
inductive GlobSegment where
  | Literal : List Char → GlobSegment
  | Wildcard : GlobSegment
  | Globstar : GlobSegment
  | CharClass : List Char → GlobSegment
deriving DecidableEq, Repr

/-- Rust `matches!(seg, GlobSegment::Globstar)` (src/lib.rs line 318). -/
def isGlobstar : GlobSegment → Bool
  | GlobSegment.Globstar => true
  | _ => false

/-- Rust `input.contains("//")` (src/lib.rs line 14), on the char level
('/' is ASCII, so byte- and char-level containment agree). -/
def containsDoubleSlash : List Char → Bool
  | [] => false
  | [_] => false
  | c1 :: c2 :: rest => (c1 = '/' && c2 = '/') || containsDoubleSlash (c2 :: rest)

/-- Loop body of `has_multiple_globstars` (src/lib.rs lines 194-209); the
second argument is the running `globstar_count`. -/
def hmgAux : List Char → Nat → Bool
  | c1 :: c2 :: rest, count =>
    if c1 = '*' ∧ c2 = '*' then
      if count + 1 > 1 then true else hmgAux rest (count + 1)
    else hmgAux (c2 :: rest) count
  | _, _ => false

/-- Rust `has_multiple_globstars` (src/lib.rs lines 194-209). -/
def has_multiple_globstars (pattern : List Char) : Bool :=
  hmgAux pattern 0

/-- Specification-side definition for the refinement claim about the pattern
classifier, following the spec's words: the number of non-overlapping `**`
pairs found by a single left-to-right scan that advances two positions past
each recognized `**` ("it does not re-scan inside an already-consumed
globstar"). -/
def globstarCount : List Char → Nat
  | [] => 0
  | [_] => 0
  | c1 :: c2 :: rest =>
    if c1 = '*' ∧ c2 = '*' then globstarCount rest + 1
    else globstarCount (c2 :: rest)

/-- Splits a list at the first ']' : returns the part strictly before it and
the part strictly after it, or `none` when no ']' occurs.  This embeds the
scans for a closing bracket in `match_character_class` (src/lib.rs lines
397-405) and in `parse_glob_segments` (src/lib.rs lines 247-255). -/
def findClass : List Char → Option (List Char × List Char)
  | [] => none
  | a :: r =>
    if a = ']' then some ([], r)
    else (findClass r).map (fun p => (a :: p.1, p.2))

/-- Rust `is_char_in_class` (src/lib.rs lines 440-461): a position starts a
range exactly when at least two further characters follow and the next one
is '-'. -/
def is_char_in_class (c : Char) : List Char → Bool
  | a :: b :: e :: rest =>
    if b = '-' then
      if a ≤ c ∧ c ≤ e then true else is_char_in_class c rest
    else
      if c = a then true else is_char_in_class c (b :: e :: rest)
  | a :: rest => if c = a then true else is_char_in_class c rest
  | [] => false

/-- Rust `matches_char_class` (src/lib.rs lines 374-387): used by the
segment-based matcher; the class text must be well formed (length at least 3,
starting with '[' and ending with ']') or no character matches. -/
def matches_char_class (ch : Char) (cl : List Char) : Bool :=
  if cl.length < 3 then false
  else if cl.head? ≠ some '[' then false
  else if cl.getLast? ≠ some ']' then false
  else
    let content := (cl.drop 1).dropLast
    let neg := content.head? = some '^'
    let actual := if neg then content.drop 1 else content
    let m := is_char_in_class ch actual
    if neg then !m else m

/-- Rust `needs_intermediate_directory` (src/lib.rs lines 168-176).  `prev2`
is the pattern character immediately preceding the `**` (`none` when the
globstar starts the pattern), so `hasPrefixSlash` embeds
`actual_globstar_start > 0 && pattern[actual_globstar_start-1] == '/'`;
`np` is the pattern suffix starting at `next_idx`, so `hasSuffixPat` embeds
`next_idx < pattern.len()`. -/
def needs_intermediate_directory (prev2 : Option Char) (np : List Char) : Bool :=
  let hasPrefixSlash := prev2 = some '/'
  let hasSuffixPat := !np.isEmpty
  hasPrefixSlash && hasSuffixPat

/-- Rust `has_multiple_path_components_after_globstar` (src/lib.rs lines
178-192): the remaining pattern is nonempty, starts with '*' and contains a
'.' somewhere. -/
def has_multiple_path_components_after_globstar (np : List Char) : Bool :=
  if np.isEmpty then false
  else (np.head? = some '*') && np.contains '.'

theorem findClass_some_length {l a b : List Char} (h : findClass l = some (a, b)) :
    a.length + b.length + 1 = l.length := by
  induction l generalizing a b with
  | nil => simp [findClass] at h
  | cons x xs ih =>
    by_cases hx : x = ']'
    · simp only [findClass, if_pos hx, Option.some.injEq, Prod.mk.injEq] at h
      obtain ⟨h1, h2⟩ := h
      subst h1; subst h2
      simp
    · simp only [findClass, if_neg hx] at h
      cases hfc : findClass xs with
      | none => rw [hfc] at h; simp at h
      | some p =>
        rw [hfc] at h
        simp only [Option.map_some', Option.some.injEq, Prod.mk.injEq] at h
        obtain ⟨h1, h2⟩ := h
        have hlen := ih (a := p.1) (b := p.2) (by rw [hfc])
        subst h1; subst h2
        simp only [List.length_cons]
        omega

mutual

/-- Rust `match_pattern` (src/lib.rs lines 36-112), over the suffixes of the
input and the pattern, threading `prev` = the pattern character just before
the current pattern suffix (`none` at the start of the whole pattern). -/
def match_pattern : List Char → List Char → Option Char → Bool
  | inp, [], _ => inp.isEmpty
  | [], p :: ps, _ => (p :: ps).all (fun c => c = '*')
  | c :: cs, '*' :: '*' :: rest, prev => match_globstar (c :: cs) rest prev
  | c :: cs, ['*'], _ => !((c :: cs).contains '/')
  | c :: cs, '*' :: p2 :: ps, _ =>
    match_pattern (c :: cs) (p2 :: ps) (some '*') || star_loop (c :: cs) (p2 :: ps)
  | c :: cs, '?' :: ps, _ => if c ≠ '/' then match_pattern cs ps (some '?') else false
  | c :: cs, '[' :: ps, _ => match_character_class (c :: cs) ps
  | c :: cs, p :: ps, _ => if c = p then match_pattern cs ps (some p) else false
termination_by inp pat _ => (inp.length + pat.length, 1)
decreasing_by
  all_goals try simp only [List.length_cons]
  all_goals first
    | (apply Prod.Lex.left; omega)
    | (apply Prod.Lex.right; omega)

/-- The `for i in input_idx..input.len()` loop in the single-`*` case of
`match_pattern` (src/lib.rs lines 81-88): stop at the first '/', otherwise
try matching the rest of the pattern after consuming one more character. -/
def star_loop : List Char → List Char → Bool
  | [], _ => false
  | c :: cs, ps =>
    if c = '/' then false
    else match_pattern cs ps (some '*') || star_loop cs ps
termination_by inp ps => (inp.length + ps.length, 0)
decreasing_by
  all_goals try simp only [List.length_cons]
  all_goals first
    | (apply Prod.Lex.left; omega)
    | (apply Prod.Lex.right; omega)

/-- Rust `match_globstar` (src/lib.rs lines 114-166).  `gsPat` is the pattern
suffix immediately after the two `*` characters; `prev2` is the pattern
character immediately before the `**` (`none` if the globstar starts the
pattern). -/
def match_globstar : List Char → List Char → Option Char → Bool
  | inp, '/' :: np, prev2 =>
    if np.isEmpty then true
    else
      let should_require := needs_intermediate_directory prev2 np
        && has_multiple_path_components_after_globstar np
      (!should_require && match_pattern inp np (some '/')) || gs_slash_loop false inp np
  | inp, np, _ =>
    if np.isEmpty then true
    else match_pattern inp np (some '*') || gs_any_loop inp np
termination_by inp gsPat _ => (inp.length + gsPat.length, 2)
decreasing_by
  all_goals try simp only [List.length_cons]
  all_goals first
    | (apply Prod.Lex.left; omega)
    | (apply Prod.Lex.right; omega)

/-- The `found_slash` loop of `match_globstar` (src/lib.rs lines 142-150):
scan the input, setting the flag at each '/', and once it is set try resuming
the match after each consumed character. -/
def gs_slash_loop : Bool → List Char → List Char → Bool
  | _, [], _ => false
  | found, c :: cs, np =>
    let f := found || c = '/'
    (f && match_pattern cs np (some '/')) || gs_slash_loop f cs np
termination_by _ inp np => (inp.length + np.length, 0)
decreasing_by
  all_goals try simp only [List.length_cons]
  all_goals first
    | (apply Prod.Lex.left; omega)
    | (apply Prod.Lex.right; omega)

/-- The unanchored loop of `match_globstar` (src/lib.rs lines 158-162): try
resuming after each consumed character, '/' included. -/
def gs_any_loop : List Char → List Char → Bool
  | [], _ => false
  | _ :: cs, np => match_pattern cs np (some '*') || gs_any_loop cs np
termination_by inp np => (inp.length + np.length, 0)
decreasing_by
  all_goals try simp only [List.length_cons]
  all_goals first
    | (apply Prod.Lex.left; omega)
    | (apply Prod.Lex.right; omega)

/-- Rust `match_character_class` (src/lib.rs lines 389-438): `ps` is the
pattern suffix just after the opening '['.  When no closing ']' exists the
'[' is compared as a literal character. -/
def match_character_class : List Char → List Char → Bool
  | [], _ => false
  | c :: cs, ps =>
    match h : findClass ps with
    | none => if c = '[' then match_pattern cs ps (some '[') else false
    | some (content, rest) =>
      let neg := content.head? = some '^'
      let actual := if neg then content.drop 1 else content
      let m := is_char_in_class c actual
      let result := if neg then !m else m
      if result then match_pattern cs rest (some ']') else false
termination_by inp ps => (inp.length + ps.length, 0)
decreasing_by
  all_goals try simp only [List.length_cons]
  · apply Prod.Lex.left; omega
  · have := findClass_some_length h
    apply Prod.Lex.left; omega

end

/-- The `if i < pattern.len() && pattern[i] == '/' { i += 1 }` step after a
recognized `**` in `parse_glob_segments` (src/lib.rs lines 227-229). -/
def skipSlash : List Char → List Char
  | '/' :: r => r
  | r => r

/-- Flushing of the accumulated `current_literal` before a non-literal
segment is pushed (src/lib.rs lines 220-223 and 266-268). -/
def flushLit (acc : List Char) (k : List GlobSegment) : List GlobSegment :=
  if acc = [] then k else GlobSegment.Literal acc :: k

theorem skipSlash_length_le (r : List Char) : (skipSlash r).length ≤ r.length := by
  cases r with
  | nil => simp [skipSlash]
  | cons a r =>
    by_cases ha : a = '/'
    · subst ha; simp [skipSlash]
    · have : skipSlash (a :: r) = a :: r := by
        cases r <;> simp [skipSlash, ha]
      simp [this]

/-- Rust `parse_glob_segments` (src/lib.rs lines 211-271); the second
argument is the running `current_literal`. -/
def parse_glob_segments : List Char → List Char → List GlobSegment
  | '*' :: '*' :: rest, acc =>
    flushLit acc (GlobSegment.Globstar :: parse_glob_segments (skipSlash rest) [])
  | '*' :: rest, acc =>
    flushLit acc (GlobSegment.Wildcard :: parse_glob_segments rest [])
  | '[' :: rest, acc =>
    (match h : findClass rest with
     | some (content, after) =>
       flushLit acc
         (GlobSegment.CharClass ('[' :: content ++ [']']) :: parse_glob_segments after [])
     | none =>
       flushLit acc (GlobSegment.CharClass ('[' :: rest) :: parse_glob_segments [] []))
  | ch :: rest, acc => parse_glob_segments rest (acc ++ [ch])
  | [], acc => flushLit acc []
termination_by p _ => p.length
decreasing_by
  all_goals try simp only [List.length_cons]
  · have := skipSlash_length_le rest
    omega
  · omega
  · have := findClass_some_length h
    omega
  · simp
  · omega

/-- The memo table of the segment-based matcher (src/lib.rs lines 273-276):
a map from `(input_idx, segment_idx)` to a previously computed boolean.  It
is embedded as an association list consulted front-first; `insert` is
embedded as consing, which agrees with `HashMap::insert` here because the
code only inserts a key it has just failed to find. -/
abbrev Memo := List ((Nat × Nat) × Bool)

mutual

/-- Rust `match_segments_with_memo` (src/lib.rs lines 284-301): consult the
memo, otherwise compute and record the result. -/
def match_segments_with_memo (input : List Char) (ii : Nat) (segs : List GlobSegment)
    (si : Nat) (memo : Memo) : Bool × Memo :=
  match memo.lookup (ii, si) with
  | some r => (r, memo)
  | none =>
    let res := match_segments_recursive_optimized input ii segs si memo
    (res.1, ((ii, si), res.1) :: res.2)
termination_by (segs.length - si, input.length + 1 - ii, 2)
decreasing_by
  apply Prod.Lex.right
  apply Prod.Lex.right
  omega

/-- Rust `match_segments_recursive_optimized` (src/lib.rs lines 303-372). -/
def match_segments_recursive_optimized (input : List Char) (ii : Nat)
    (segs : List GlobSegment) (si : Nat) (memo : Memo) : Bool × Memo :=
  if hseg : segs.length ≤ si then (decide (input.length ≤ ii), memo)
  else if hinp : input.length ≤ ii then
    (((segs.drop si).all isGlobstar), memo)
  else
    match segs[si]? with
    | some (GlobSegment.Literal lit) =>
      if ii + lit.length ≤ input.length ∧ (input.drop ii).take lit.length = lit then
        match_segments_with_memo input (ii + lit.length) segs (si + 1) memo
      else (false, memo)
    | some GlobSegment.Wildcard => seg_wildcard_loop input ii segs si memo
    | some GlobSegment.Globstar =>
      let res := match_segments_with_memo input ii segs (si + 1) memo
      if res.1 then (true, res.2) else seg_globstar_loop input ii segs si res.2
    | some (GlobSegment.CharClass cl) =>
      match input[ii]? with
      | some ch =>
        if matches_char_class ch cl then
          match_segments_with_memo input (ii + 1) segs (si + 1) memo
        else (false, memo)
      | none => (false, memo)
    | none => (false, memo)
termination_by (segs.length - si, input.length + 1 - ii, 1)
decreasing_by
  · apply Prod.Lex.left; omega
  · apply Prod.Lex.right; apply Prod.Lex.right; omega
  · apply Prod.Lex.left; omega
  · apply Prod.Lex.right; apply Prod.Lex.right; omega
  · apply Prod.Lex.left; omega

/-- The `for i in input_idx..input_chars.len()` loop of the `Wildcard` arm
(src/lib.rs lines 334-341): stop at the first '/', otherwise try the rest of
the segments after each additional consumed character, threading the memo. -/
def seg_wildcard_loop (input : List Char) (i : Nat) (segs : List GlobSegment)
    (si : Nat) (memo : Memo) : Bool × Memo :=
  if h : i < input.length then
    if input[i] = '/' then (false, memo)
    else
      let res := match_segments_with_memo input (i + 1) segs (si + 1) memo
      if res.1 then (true, res.2) else seg_wildcard_loop input (i + 1) segs si res.2
  else (false, memo)
termination_by (segs.length - si, input.length + 1 - i, 0)
decreasing_by
  · rcases Nat.lt_or_ge si segs.length with hlt | hge
    · apply Prod.Lex.left; omega
    · have : segs.length - si = segs.length - (si + 1) := by omega
      rw [this]
      apply Prod.Lex.right
      apply Prod.Lex.left
      omega
  · apply Prod.Lex.right; apply Prod.Lex.left; omega

/-- The `for i in input_idx..input_chars.len()` loop of the `Globstar` arm
(src/lib.rs lines 352-356): try the rest of the segments after each
additional consumed character ('/' included), threading the memo. -/
def seg_globstar_loop (input : List Char) (i : Nat) (segs : List GlobSegment)
    (si : Nat) (memo : Memo) : Bool × Memo :=
  if h : i < input.length then
    let res := match_segments_with_memo input (i + 1) segs (si + 1) memo
    if res.1 then (true, res.2) else seg_globstar_loop input (i + 1) segs si res.2
  else (false, memo)
termination_by (segs.length - si, input.length + 1 - i, 0)
decreasing_by
  · rcases Nat.lt_or_ge si segs.length with hlt | hge
    · apply Prod.Lex.left; omega
    · have : segs.length - si = segs.length - (si + 1) := by omega
      rw [this]
      apply Prod.Lex.right
      apply Prod.Lex.left
      omega
  · apply Prod.Lex.right; apply Prod.Lex.left; omega

end

/-- Rust `match_with_segments` (src/lib.rs lines 278-282): run the memoized
matcher from position `(0, 0)` with a fresh memo table. -/
def match_with_segments (input : List Char) (segs : List GlobSegment) : Bool :=
  (match_segments_with_memo input 0 segs 0 []).1

mutual

/-- Memo-free twin of `match_segments_recursive_optimized`: the plain
recursive segment matcher, identical branch for branch except that no memo
table is consulted or updated. -/
def match_segments_plain (input : List Char) (ii : Nat) (segs : List GlobSegment)
    (si : Nat) : Bool :=
  if hseg : segs.length ≤ si then decide (input.length ≤ ii)
  else if hinp : input.length ≤ ii then (segs.drop si).all isGlobstar
  else
    match segs[si]? with
    | some (GlobSegment.Literal lit) =>
      if ii + lit.length ≤ input.length ∧ (input.drop ii).take lit.length = lit then
        match_segments_plain input (ii + lit.length) segs (si + 1)
      else false
    | some GlobSegment.Wildcard => plain_wildcard_loop input ii segs si
    | some GlobSegment.Globstar =>
      if match_segments_plain input ii segs (si + 1) then true
      else plain_globstar_loop input ii segs si
    | some (GlobSegment.CharClass cl) =>
      match input[ii]? with
      | some ch =>
        if matches_char_class ch cl then match_segments_plain input (ii + 1) segs (si + 1)
        else false
      | none => false
    | none => false
termination_by (segs.length - si, input.length + 1 - ii, 1)
decreasing_by
  · apply Prod.Lex.left; omega
  · apply Prod.Lex.right; apply Prod.Lex.right; omega
  · apply Prod.Lex.left; omega
  · apply Prod.Lex.right; apply Prod.Lex.right; omega
  · apply Prod.Lex.left; omega

/-- Memo-free twin of `seg_wildcard_loop`. -/
def plain_wildcard_loop (input : List Char) (i : Nat) (segs : List GlobSegment)
    (si : Nat) : Bool :=
  if h : i < input.length then
    if input[i] = '/' then false
    else if match_segments_plain input (i + 1) segs (si + 1) then true
    else plain_wildcard_loop input (i + 1) segs si
  else false
termination_by (segs.length - si, input.length + 1 - i, 0)
decreasing_by
  · rcases Nat.lt_or_ge si segs.length with hlt | hge
    · apply Prod.Lex.left; omega
    · have : segs.length - si = segs.length - (si + 1) := by omega
      rw [this]
      apply Prod.Lex.right
      apply Prod.Lex.left
      omega
  · apply Prod.Lex.right; apply Prod.Lex.left; omega

/-- Memo-free twin of `seg_globstar_loop`. -/
def plain_globstar_loop (input : List Char) (i : Nat) (segs : List GlobSegment)
    (si : Nat) : Bool :=
  if h : i < input.length then
    if match_segments_plain input (i + 1) segs (si + 1) then true
    else plain_globstar_loop input (i + 1) segs si
  else false
termination_by (segs.length - si, input.length + 1 - i, 0)
decreasing_by
  · rcases Nat.lt_or_ge si segs.length with hlt | hge
    · apply Prod.Lex.left; omega
    · have : segs.length - si = segs.length - (si + 1) := by omega
      rw [this]
      apply Prod.Lex.right
      apply Prod.Lex.left
      omega
  · apply Prod.Lex.right; apply Prod.Lex.left; omega

end

/-- Rust `is_match` (src/lib.rs lines 9-34): reject inputs with a doubled
separator, apply the dot-file gate, then dispatch on the number of
globstars. -/
def is_match (input : List Char) (pattern : List Char) : Bool :=
  if containsDoubleSlash input then false
  else if pattern.head? = some '*' ∧ input.head? = some '.' then false
  else if has_multiple_globstars pattern then
    match_with_segments input (parse_glob_segments pattern [])
  else match_pattern input pattern none

/-! ## Helper lemmas -/

theorem containsDoubleSlash_append (l r : List Char) :
    containsDoubleSlash (l ++ '/' :: '/' :: r) = true := by
  induction l with
  | nil => simp [containsDoubleSlash]
  | cons x l ih =>
    cases l with
    | nil => simp_all [containsDoubleSlash]
    | cons y l2 => simp_all [containsDoubleSlash]

theorem hmgAux_iff : ∀ (p : List Char) (c : Nat),
    hmgAux p c = true ↔ 1 ≤ globstarCount p ∧ 2 ≤ c + globstarCount p
  | [], c => by simp [hmgAux, globstarCount]
  | [x], c => by simp [hmgAux, globstarCount]
  | x :: y :: rest, c => by
    by_cases h : x = '*' ∧ y = '*'
    · simp only [hmgAux, globstarCount, if_pos h]
      by_cases hc : c + 1 > 1
      · rw [if_pos hc]
        simp only [true_iff]
        constructor <;> omega
      · rw [if_neg hc, hmgAux_iff rest (c + 1)]
        omega
    · simp only [hmgAux, globstarCount, if_neg h]
      exact hmgAux_iff (y :: rest) c
termination_by p _ => p.length

/-! ## Claims -/

/-- Claim C5: dot-file gating: for every pattern whose first character is `*`
and every input whose first character is `.`, `is_match` returns false, even
if the remainder of the pattern would otherwise match; the gate sits in
`is_match` itself, before either matcher runs. -/
theorem claim_C5 (input pattern : List Char) (hp : pattern.head? = some '*')
    (hi : input.head? = some '.') : is_match input pattern = false := by
  simp [is_match, hp, hi]

/-- Witness for C5 at the spec's own example: `match(".env", "*.env")` is
false. -/
theorem claim_C5_witness : is_match ".env".toList "*.env".toList = false :=
  claim_C5 ".env".toList "*.env".toList (by decide) (by decide)

/-- Claim C6: doubled-separator rejection: an input containing two
consecutive `/` characters never matches, whatever the pattern. -/
theorem claim_C6 (input pattern l r : List Char)
    (h : input = l ++ '/' :: '/' :: r) : is_match input pattern = false := by
  subst h
  simp [is_match, containsDoubleSlash_append]

/-- Witness for C6 at the spec's own example:
`match("src//main.js", "src/**/main.js")` is false. -/
theorem claim_C6_witness :
    is_match "src//main.js".toList "src/**/main.js".toList = false :=
  claim_C6 _ _ "src".toList "main.js".toList (by decide)

/-- Claim C8: the pattern classifier `has_multiple_globstars` returns true
iff the pattern contains two or more non-overlapping `**` pairs under the
left-to-right scan that advances the cursor two positions past each
recognized `**` (`globstarCount`); in particular `***` counts as a single
globstar. -/
theorem claim_C8 :
    (∀ pattern : List Char,
      has_multiple_globstars pattern = true ↔ 2 ≤ globstarCount pattern)
    ∧ globstarCount "***".toList = 1
    ∧ has_multiple_globstars "***".toList = false
    ∧ has_multiple_globstars "**a**".toList = true := by
  refine ⟨?_, by decide, by decide, by decide⟩
  intro pattern
  unfold has_multiple_globstars
  rw [hmgAux_iff]
  omega

/-- Claim C9: totality: `is_match` is a total boolean function of its two
arguments.  The embedding establishes this by construction: every function
of the engine is accepted by the termination checker with a measure on the
remaining input and pattern, so for every input pair the result is one of
the two booleans. -/
theorem claim_C9 (input pattern : List Char) :
    is_match input pattern = true ∨ is_match input pattern = false := by
  cases h : is_match input pattern
  · exact Or.inr rfl
  · exact Or.inl rfl

/-- Claim C10: the dot-file gate takes precedence over bare-globstar
absorption: input starting with `.` never matches the pattern `**`, even
though `**` matches inputs that do not start with `.` (second conjunct shows
the contrast). -/
theorem claim_C10 :
    (∀ cs : List Char, is_match ('.' :: cs) "**".toList = false)
    ∧ is_match "a/b".toList "**".toList = true := by
  constructor
  · intro cs
    simp [is_match]
  · simp +decide [is_match, match_pattern, match_globstar, containsDoubleSlash,
      has_multiple_globstars, hmgAux]

/-! ## Branch equations for the segment matchers -/

theorem lookup_cons_eq {m : Memo} {k k2 : Nat × Nat} {v : Bool} :
    List.lookup k ((k2, v) :: m) = if k = k2 then some v else List.lookup k m := by
  by_cases hk : k = k2
  · subst hk; simp [List.lookup_cons]
  · have hb : (k == k2) = false := beq_eq_false_iff_ne.mpr hk
    rw [List.lookup_cons, hb, if_neg hk]

theorem msm_hit {input : List Char} {ii : Nat} {segs : List GlobSegment} {si : Nat}
    {memo : Memo} {r : Bool} (hl : memo.lookup (ii, si) = some r) :
    match_segments_with_memo input ii segs si memo = (r, memo) := by
  unfold match_segments_with_memo
  rw [hl]

theorem msm_miss {input : List Char} {ii : Nat} {segs : List GlobSegment} {si : Nat}
    {memo : Memo} (hl : memo.lookup (ii, si) = none) :
    match_segments_with_memo input ii segs si memo =
      ((match_segments_recursive_optimized input ii segs si memo).1,
       ((ii, si), (match_segments_recursive_optimized input ii segs si memo).1)
         :: (match_segments_recursive_optimized input ii segs si memo).2) := by
  unfold match_segments_with_memo
  rw [hl]

theorem msr_seg_done {input : List Char} {ii : Nat} {segs : List GlobSegment} {si : Nat}
    {memo : Memo} (h : segs.length ≤ si) :
    match_segments_recursive_optimized input ii segs si memo
      = (decide (input.length ≤ ii), memo) := by
  unfold match_segments_recursive_optimized
  rw [dif_pos h]

theorem msr_inp_done {input : List Char} {ii : Nat} {segs : List GlobSegment} {si : Nat}
    {memo : Memo} (h1 : ¬ segs.length ≤ si) (h2 : input.length ≤ ii) :
    match_segments_recursive_optimized input ii segs si memo
      = ((segs.drop si).all isGlobstar, memo) := by
  unfold match_segments_recursive_optimized
  rw [dif_neg h1, dif_pos h2]

theorem msr_lit {input : List Char} {ii : Nat} {segs : List GlobSegment} {si : Nat}
    {memo : Memo} {lit : List Char} (h1 : ¬ segs.length ≤ si) (h2 : ¬ input.length ≤ ii)
    (hget : segs[si]? = some (GlobSegment.Literal lit)) :
    match_segments_recursive_optimized input ii segs si memo
      = (if ii + lit.length ≤ input.length ∧ (input.drop ii).take lit.length = lit then
          match_segments_with_memo input (ii + lit.length) segs (si + 1) memo
         else (false, memo)) := by
  unfold match_segments_recursive_optimized
  rw [dif_neg h1, dif_neg h2, hget]

theorem msr_wild {input : List Char} {ii : Nat} {segs : List GlobSegment} {si : Nat}
    {memo : Memo} (h1 : ¬ segs.length ≤ si) (h2 : ¬ input.length ≤ ii)
    (hget : segs[si]? = some GlobSegment.Wildcard) :
    match_segments_recursive_optimized input ii segs si memo
      = seg_wildcard_loop input ii segs si memo := by
  unfold match_segments_recursive_optimized
  rw [dif_neg h1, dif_neg h2, hget]

theorem msr_gs {input : List Char} {ii : Nat} {segs : List GlobSegment} {si : Nat}
    {memo : Memo} (h1 : ¬ segs.length ≤ si) (h2 : ¬ input.length ≤ ii)
    (hget : segs[si]? = some GlobSegment.Globstar) :
    match_segments_recursive_optimized input ii segs si memo
      = (if (match_segments_with_memo input ii segs (si + 1) memo).1 then
          (true, (match_segments_with_memo input ii segs (si + 1) memo).2)
         else
          seg_globstar_loop input ii segs si
            (match_segments_with_memo input ii segs (si + 1) memo).2) := by
  unfold match_segments_recursive_optimized
  rw [dif_neg h1, dif_neg h2, hget]

theorem msr_class {input : List Char} {ii : Nat} {segs : List GlobSegment} {si : Nat}
    {memo : Memo} {cl : List Char} (h1 : ¬ segs.length ≤ si) (h2 : ¬ input.length ≤ ii)
    (hget : segs[si]? = some (GlobSegment.CharClass cl)) :
    match_segments_recursive_optimized input ii segs si memo
      = (match input[ii]? with
         | some ch =>
           if matches_char_class ch cl then
             match_segments_with_memo input (ii + 1) segs (si + 1) memo
           else (false, memo)
         | none => (false, memo)) := by
  unfold match_segments_recursive_optimized
  rw [dif_neg h1, dif_neg h2, hget]

theorem swl_stop {input : List Char} {i : Nat} {segs : List GlobSegment} {si : Nat}
    {memo : Memo} (h : ¬ i < input.length) :
    seg_wildcard_loop input i segs si memo = (false, memo) := by
  unfold seg_wildcard_loop
  rw [dif_neg h]

theorem swl_slash {input : List Char} {i : Nat} {segs : List GlobSegment} {si : Nat}
    {memo : Memo} (h : i < input.length) (hs : input[i] = '/') :
    seg_wildcard_loop input i segs si memo = (false, memo) := by
  unfold seg_wildcard_loop
  rw [dif_pos h, if_pos hs]

theorem swl_go {input : List Char} {i : Nat} {segs : List GlobSegment} {si : Nat}
    {memo : Memo} (h : i < input.length) (hs : ¬ input[i] = '/') :
    seg_wildcard_loop input i segs si memo
      = (if (match_segments_with_memo input (i + 1) segs (si + 1) memo).1 then
          (true, (match_segments_with_memo input (i + 1) segs (si + 1) memo).2)
         else
          seg_wildcard_loop input (i + 1) segs si
            (match_segments_with_memo input (i + 1) segs (si + 1) memo).2) := by
  conv_lhs => unfold seg_wildcard_loop
  rw [dif_pos h, if_neg hs]

theorem sgl_stop {input : List Char} {i : Nat} {segs : List GlobSegment} {si : Nat}
    {memo : Memo} (h : ¬ i < input.length) :
    seg_globstar_loop input i segs si memo = (false, memo) := by
  unfold seg_globstar_loop
  rw [dif_neg h]

theorem sgl_go {input : List Char} {i : Nat} {segs : List GlobSegment} {si : Nat}
    {memo : Memo} (h : i < input.length) :
    seg_globstar_loop input i segs si memo
      = (if (match_segments_with_memo input (i + 1) segs (si + 1) memo).1 then
          (true, (match_segments_with_memo input (i + 1) segs (si + 1) memo).2)
         else
          seg_globstar_loop input (i + 1) segs si
            (match_segments_with_memo input (i + 1) segs (si + 1) memo).2) := by
  conv_lhs => unfold seg_globstar_loop
  rw [dif_pos h]

theorem msp_seg_done {input : List Char} {ii : Nat} {segs : List GlobSegment} {si : Nat}
    (h : segs.length ≤ si) :
    match_segments_plain input ii segs si = decide (input.length ≤ ii) := by
  unfold match_segments_plain
  rw [dif_pos h]

theorem msp_inp_done {input : List Char} {ii : Nat} {segs : List GlobSegment} {si : Nat}
    (h1 : ¬ segs.length ≤ si) (h2 : input.length ≤ ii) :
    match_segments_plain input ii segs si = (segs.drop si).all isGlobstar := by
  unfold match_segments_plain
  rw [dif_neg h1, dif_pos h2]

theorem msp_lit {input : List Char} {ii : Nat} {segs : List GlobSegment} {si : Nat}
    {lit : List Char} (h1 : ¬ segs.length ≤ si) (h2 : ¬ input.length ≤ ii)
    (hget : segs[si]? = some (GlobSegment.Literal lit)) :
    match_segments_plain input ii segs si
      = (if ii + lit.length ≤ input.length ∧ (input.drop ii).take lit.length = lit then
          match_segments_plain input (ii + lit.length) segs (si + 1)
         else false) := by
  conv_lhs => unfold match_segments_plain
  rw [dif_neg h1, dif_neg h2, hget]

theorem msp_wild {input : List Char} {ii : Nat} {segs : List GlobSegment} {si : Nat}
    (h1 : ¬ segs.length ≤ si) (h2 : ¬ input.length ≤ ii)
    (hget : segs[si]? = some GlobSegment.Wildcard) :
    match_segments_plain input ii segs si = plain_wildcard_loop input ii segs si := by
  conv_lhs => unfold match_segments_plain
  rw [dif_neg h1, dif_neg h2, hget]

theorem msp_gs {input : List Char} {ii : Nat} {segs : List GlobSegment} {si : Nat}
    (h1 : ¬ segs.length ≤ si) (h2 : ¬ input.length ≤ ii)
    (hget : segs[si]? = some GlobSegment.Globstar) :
    match_segments_plain input ii segs si
      = (if match_segments_plain input ii segs (si + 1) then true
         else plain_globstar_loop input ii segs si) := by
  conv_lhs => unfold match_segments_plain
  rw [dif_neg h1, dif_neg h2, hget]

theorem msp_class {input : List Char} {ii : Nat} {segs : List GlobSegment} {si : Nat}
    {cl : List Char} (h1 : ¬ segs.length ≤ si) (h2 : ¬ input.length ≤ ii)
    (hget : segs[si]? = some (GlobSegment.CharClass cl)) :
    match_segments_plain input ii segs si
      = (match input[ii]? with
         | some ch =>
           if matches_char_class ch cl then match_segments_plain input (ii + 1) segs (si + 1)
           else false
         | none => false) := by
  conv_lhs => unfold match_segments_plain
  rw [dif_neg h1, dif_neg h2, hget]

theorem pwl_stop {input : List Char} {i : Nat} {segs : List GlobSegment} {si : Nat}
    (h : ¬ i < input.length) : plain_wildcard_loop input i segs si = false := by
  unfold plain_wildcard_loop
  rw [dif_neg h]

theorem pwl_slash {input : List Char} {i : Nat} {segs : List GlobSegment} {si : Nat}
    (h : i < input.length) (hs : input[i] = '/') :
    plain_wildcard_loop input i segs si = false := by
  unfold plain_wildcard_loop
  rw [dif_pos h, if_pos hs]

theorem pwl_go {input : List Char} {i : Nat} {segs : List GlobSegment} {si : Nat}
    (h : i < input.length) (hs : ¬ input[i] = '/') :
    plain_wildcard_loop input i segs si
      = (if match_segments_plain input (i + 1) segs (si + 1) then true
         else plain_wildcard_loop input (i + 1) segs si) := by
  conv_lhs => unfold plain_wildcard_loop
  rw [dif_pos h, if_neg hs]

theorem pgl_stop {input : List Char} {i : Nat} {segs : List GlobSegment} {si : Nat}
    (h : ¬ i < input.length) : plain_globstar_loop input i segs si = false := by
  unfold plain_globstar_loop
  rw [dif_neg h]

theorem pgl_go {input : List Char} {i : Nat} {segs : List GlobSegment} {si : Nat}
    (h : i < input.length) :
    plain_globstar_loop input i segs si
      = (if match_segments_plain input (i + 1) segs (si + 1) then true
         else plain_globstar_loop input (i + 1) segs si) := by
  conv_lhs => unfold plain_globstar_loop
  rw [dif_pos h]

/-! ## Memoization soundness -/

/-- A memo table is sound when every stored entry agrees with the plain
(memo-free) segment matcher at its position pair. -/
def MemoSound (input : List Char) (segs : List GlobSegment) (m : Memo) : Prop :=
  ∀ pi si b, m.lookup (pi, si) = some b → b = match_segments_plain input pi segs si

/-- Every entry of `m` is still present, with the same value, in `m2`:
no entry is ever invalidated or overwritten with a different value. -/
def MemoPreserves (m m2 : Memo) : Prop :=
  ∀ k v, m.lookup k = some v → m2.lookup k = some v

theorem memoPreserves_trans {m1 m2 m3 : Memo} (h12 : MemoPreserves m1 m2)
    (h23 : MemoPreserves m2 m3) : MemoPreserves m1 m3 :=
  fun k v h => h23 k v (h12 k v h)

mutual

/-- Joint invariant of `match_segments_with_memo`: starting from a sound
memo, the result agrees with the plain matcher, the final memo is sound, and
every pre-existing entry survives unchanged. -/
theorem msm_correct (input : List Char) (segs : List GlobSegment) (ii si : Nat)
    (memo : Memo) (hs : MemoSound input segs memo) :
    (match_segments_with_memo input ii segs si memo).1
        = match_segments_plain input ii segs si
      ∧ MemoSound input segs (match_segments_with_memo input ii segs si memo).2
      ∧ MemoPreserves memo (match_segments_with_memo input ii segs si memo).2 := by
  cases hl : memo.lookup (ii, si) with
  | some r =>
    rw [msm_hit hl]
    exact ⟨hs ii si r hl, hs, fun _ _ h => h⟩
  | none =>
    have ih := msr_correct input segs ii si memo hs
    rw [msm_miss hl]
    refine ⟨ih.1, ?_, ?_⟩
    · intro pi si2 b hb
      rw [lookup_cons_eq] at hb
      by_cases hk : ((pi, si2) : Nat × Nat) = (ii, si)
      · rw [if_pos hk] at hb
        rw [Prod.mk.injEq] at hk
        obtain ⟨hpi, hsi⟩ := hk
        subst hpi; subst hsi
        exact (Option.some.inj hb).symm.trans ih.1
      · rw [if_neg hk] at hb
        exact ih.2.1 pi si2 b hb
    · intro k v hv
      rw [lookup_cons_eq]
      by_cases hkk : k = (ii, si)
      · subst hkk
        rw [hl] at hv
        simp at hv
      · rw [if_neg hkk]
        exact ih.2.2 k v hv
termination_by (segs.length - si, input.length + 1 - ii, 2)
decreasing_by
  apply Prod.Lex.right; apply Prod.Lex.right; omega

/-- Joint invariant of `match_segments_recursive_optimized`. -/
theorem msr_correct (input : List Char) (segs : List GlobSegment) (ii si : Nat)
    (memo : Memo) (hs : MemoSound input segs memo) :
    (match_segments_recursive_optimized input ii segs si memo).1
        = match_segments_plain input ii segs si
      ∧ MemoSound input segs (match_segments_recursive_optimized input ii segs si memo).2
      ∧ MemoPreserves memo (match_segments_recursive_optimized input ii segs si memo).2 := by
  by_cases h1 : segs.length ≤ si
  · rw [msr_seg_done h1, msp_seg_done h1]
    exact ⟨rfl, hs, fun _ _ h => h⟩
  · by_cases h2 : input.length ≤ ii
    · rw [msr_inp_done h1 h2, msp_inp_done h1 h2]
      exact ⟨rfl, hs, fun _ _ h => h⟩
    · have hlt : si < segs.length := by omega
      obtain ⟨seg, hget⟩ : ∃ seg, segs[si]? = some seg :=
        ⟨segs[si], by simp [List.getElem?_eq_getElem hlt]⟩
      cases seg with
      | Literal lit =>
        rw [msr_lit h1 h2 hget, msp_lit h1 h2 hget]
        by_cases hc : ii + lit.length ≤ input.length
            ∧ (input.drop ii).take lit.length = lit
        · rw [if_pos hc, if_pos hc]
          exact msm_correct input segs (ii + lit.length) (si + 1) memo hs
        · rw [if_neg hc, if_neg hc]
          exact ⟨rfl, hs, fun _ _ h => h⟩
      | Wildcard =>
        rw [msr_wild h1 h2 hget, msp_wild h1 h2 hget]
        exact swl_correct input segs ii si memo hs
      | Globstar =>
        rw [msr_gs h1 h2 hget, msp_gs h1 h2 hget]
        have ih := msm_correct input segs ii (si + 1) memo hs
        by_cases hr : (match_segments_with_memo input ii segs (si + 1) memo).1 = true
        · have hp : match_segments_plain input ii segs (si + 1) = true :=
            ih.1.symm.trans hr
          rw [if_pos hr, if_pos hp]
          exact ⟨rfl, ih.2.1, ih.2.2⟩
        · have hp : ¬ match_segments_plain input ii segs (si + 1) = true :=
            fun hh => hr (ih.1.trans hh)
          rw [if_neg hr, if_neg hp]
          have ih2 := sgl_correct input segs ii si
            (match_segments_with_memo input ii segs (si + 1) memo).2 ih.2.1
          exact ⟨ih2.1, ih2.2.1, memoPreserves_trans ih.2.2 ih2.2.2⟩
      | CharClass cl =>
        rw [msr_class h1 h2 hget, msp_class h1 h2 hget]
        cases hch : input[ii]? with
        | none =>
          simp only [hch]
          exact ⟨trivial, hs, fun _ _ h => h⟩
        | some ch =>
          simp only [hch]
          by_cases hm : matches_char_class ch cl = true
          · rw [if_pos hm, if_pos hm]
            exact msm_correct input segs (ii + 1) (si + 1) memo hs
          · rw [if_neg hm, if_neg hm]
            exact ⟨rfl, hs, fun _ _ h => h⟩
termination_by (segs.length - si, input.length + 1 - ii, 1)
decreasing_by
  · apply Prod.Lex.left; omega
  · apply Prod.Lex.right; apply Prod.Lex.right; omega
  · apply Prod.Lex.left; omega
  · apply Prod.Lex.right; apply Prod.Lex.right; omega
  · apply Prod.Lex.left; omega

/-- Joint invariant of `seg_wildcard_loop`. -/
theorem swl_correct (input : List Char) (segs : List GlobSegment) (i si : Nat)
    (memo : Memo) (hs : MemoSound input segs memo) :
    (seg_wildcard_loop input i segs si memo).1 = plain_wildcard_loop input i segs si
      ∧ MemoSound input segs (seg_wildcard_loop input i segs si memo).2
      ∧ MemoPreserves memo (seg_wildcard_loop input i segs si memo).2 := by
  by_cases h : i < input.length
  · by_cases hsl : input[i] = '/'
    · rw [swl_slash h hsl, pwl_slash h hsl]
      exact ⟨rfl, hs, fun _ _ hh => hh⟩
    · rw [swl_go h hsl, pwl_go h hsl]
      have ih := msm_correct input segs (i + 1) (si + 1) memo hs
      by_cases hr : (match_segments_with_memo input (i + 1) segs (si + 1) memo).1 = true
      · have hp : match_segments_plain input (i + 1) segs (si + 1) = true :=
          ih.1.symm.trans hr
        rw [if_pos hr, if_pos hp]
        exact ⟨rfl, ih.2.1, ih.2.2⟩
      · have hp : ¬ match_segments_plain input (i + 1) segs (si + 1) = true :=
          fun hh => hr (ih.1.trans hh)
        rw [if_neg hr, if_neg hp]
        have ih2 := swl_correct input segs (i + 1) si
          (match_segments_with_memo input (i + 1) segs (si + 1) memo).2 ih.2.1
        exact ⟨ih2.1, ih2.2.1, memoPreserves_trans ih.2.2 ih2.2.2⟩
  · rw [swl_stop h, pwl_stop h]
    exact ⟨rfl, hs, fun _ _ hh => hh⟩
termination_by (segs.length - si, input.length + 1 - i, 0)
decreasing_by
  · rcases Nat.lt_or_ge si segs.length with hlt | hge
    · apply Prod.Lex.left; omega
    · have he : segs.length - si = segs.length - (si + 1) := by omega
      rw [he]
      apply Prod.Lex.right; apply Prod.Lex.left; omega
  · apply Prod.Lex.right; apply Prod.Lex.left; omega

/-- Joint invariant of `seg_globstar_loop`. -/
theorem sgl_correct (input : List Char) (segs : List GlobSegment) (i si : Nat)
    (memo : Memo) (hs : MemoSound input segs memo) :
    (seg_globstar_loop input i segs si memo).1 = plain_globstar_loop input i segs si
      ∧ MemoSound input segs (seg_globstar_loop input i segs si memo).2
      ∧ MemoPreserves memo (seg_globstar_loop input i segs si memo).2 := by
  by_cases h : i < input.length
  · rw [sgl_go h, pgl_go h]
    have ih := msm_correct input segs (i + 1) (si + 1) memo hs
    by_cases hr : (match_segments_with_memo input (i + 1) segs (si + 1) memo).1 = true
    · have hp : match_segments_plain input (i + 1) segs (si + 1) = true :=
        ih.1.symm.trans hr
      rw [if_pos hr, if_pos hp]
      exact ⟨rfl, ih.2.1, ih.2.2⟩
    · have hp : ¬ match_segments_plain input (i + 1) segs (si + 1) = true :=
        fun hh => hr (ih.1.trans hh)
      rw [if_neg hr, if_neg hp]
      have ih2 := sgl_correct input segs (i + 1) si
        (match_segments_with_memo input (i + 1) segs (si + 1) memo).2 ih.2.1
      exact ⟨ih2.1, ih2.2.1, memoPreserves_trans ih.2.2 ih2.2.2⟩
  · rw [sgl_stop h, pgl_stop h]
    exact ⟨rfl, hs, fun _ _ hh => hh⟩
termination_by (segs.length - si, input.length + 1 - i, 0)
decreasing_by
  · rcases Nat.lt_or_ge si segs.length with hlt | hge
    · apply Prod.Lex.left; omega
    · have he : segs.length - si = segs.length - (si + 1) := by omega
      rw [he]
      apply Prod.Lex.right; apply Prod.Lex.left; omega
  · apply Prod.Lex.right; apply Prod.Lex.left; omega

end

/-- The empty memo is sound. -/
theorem memoSound_nil (input : List Char) (segs : List GlobSegment) :
    MemoSound input segs [] := by
  intro pi si b hb
  simp [List.lookup] at hb

/-- Top-level corollary: the memoized matcher entry point agrees with the
plain matcher from position `(0, 0)`. -/
theorem match_with_segments_eq_plain (input : List Char) (segs : List GlobSegment) :
    match_with_segments input segs = match_segments_plain input 0 segs 0 :=
  (msm_correct input segs 0 0 [] (memoSound_nil input segs)).1

/-- Claim C4: memoization soundness: the memoized segment matcher returns the
same boolean as the plain (memo-free) recursive segment matcher; starting
from a sound memo, every memo entry produced holds the correct (plain) match
result for its `(input_index, segment_index)` pair, and no pre-existing
entry is ever overwritten with a different value. -/
theorem claim_C4 :
    (∀ (input : List Char) (segs : List GlobSegment),
        match_with_segments input segs = match_segments_plain input 0 segs 0)
    ∧ (∀ (input : List Char) (segs : List GlobSegment) (ii si : Nat) (memo : Memo),
        MemoSound input segs memo →
          (match_segments_with_memo input ii segs si memo).1
              = match_segments_plain input ii segs si
            ∧ MemoSound input segs (match_segments_with_memo input ii segs si memo).2
            ∧ MemoPreserves memo (match_segments_with_memo input ii segs si memo).2) :=
  ⟨match_with_segments_eq_plain,
   fun input segs ii si memo hs => msm_correct input segs ii si memo hs⟩

/-- Witness for C4 at a concrete position and the empty (trivially sound)
memo. -/
theorem claim_C4_witness :
    (match_segments_with_memo "a/b".toList 0 [GlobSegment.Globstar] 0 []).1
      = match_segments_plain "a/b".toList 0 [GlobSegment.Globstar] 0 :=
  (claim_C4.2 "a/b".toList [GlobSegment.Globstar] 0 0 []
    (by intro pi si b hb; simp [List.lookup] at hb)).1

/-- Success of `plain_wildcard_loop` is exactly: some strictly positive
number of non-`/` input characters can be consumed so that the remaining
segments match afterwards. -/
theorem plain_wildcard_loop_iff : ∀ (input : List Char) (i : Nat)
    (segs : List GlobSegment) (si : Nat),
    plain_wildcard_loop input i segs si = true ↔
      ∃ n, 1 ≤ n ∧ i + n ≤ input.length
        ∧ (∀ m, m < n → ¬ input[i + m]? = some '/')
        ∧ match_segments_plain input (i + n) segs (si + 1) = true := by
  intro input i segs si
  by_cases h : i < input.length
  · by_cases hsl : input[i] = '/'
    · rw [pwl_slash h hsl]
      constructor
      · intro hh; simp at hh
      · rintro ⟨n, hn1, hn2, hn3, hn4⟩
        exfalso
        have h0 := hn3 0 (by omega)
        rw [Nat.add_zero, List.getElem?_eq_getElem h] at h0
        exact h0 (by rw [hsl])
    · rw [pwl_go h hsl]
      have ih := plain_wildcard_loop_iff input (i + 1) segs si
      constructor
      · intro hres
        by_cases hp : match_segments_plain input (i + 1) segs (si + 1) = true
        · refine ⟨1, le_refl 1, by omega, ?_, hp⟩
          intro m hm
          have hm0 : m = 0 := by omega
          subst hm0
          rw [Nat.add_zero, List.getElem?_eq_getElem h]
          simp [hsl]
        · rw [if_neg hp] at hres
          obtain ⟨n, hn1, hn2, hn3, hn4⟩ := ih.mp hres
          refine ⟨n + 1, by omega, by omega, ?_, ?_⟩
          · intro m hm
            cases m with
            | zero =>
              rw [Nat.add_zero, List.getElem?_eq_getElem h]
              simp [hsl]
            | succ m2 =>
              have hm3 := hn3 m2 (by omega)
              rw [show i + (m2 + 1) = i + 1 + m2 by omega]
              exact hm3
          · rw [show i + (n + 1) = i + 1 + n by omega]
            exact hn4
      · rintro ⟨n, hn1, hn2, hn3, hn4⟩
        by_cases hp : match_segments_plain input (i + 1) segs (si + 1) = true
        · rw [if_pos hp]
        · rw [if_neg hp]
          apply ih.mpr
          match n, hn1 with
          | 1, _ =>
            exfalso
            exact hp (by simpa using hn4)
          | n3 + 2, _ =>
            refine ⟨n3 + 1, by omega, by omega, ?_, ?_⟩
            · intro m hm
              have hm3 := hn3 (m + 1) (by omega)
              rw [show i + 1 + m = i + (m + 1) by omega]
              exact hm3
            · rw [show i + 1 + (n3 + 1) = i + (n3 + 2) by omega]
              exact hn4
  · rw [pwl_stop h]
    constructor
    · intro hh; simp at hh
    · rintro ⟨n, hn1, hn2, _, _⟩
      exfalso
      omega
termination_by input i _ _ => input.length - i
decreasing_by
  all_goals omega

/-- Claim C7: in the memoized segment matcher, when the input is exhausted
with segments remaining the match succeeds iff every remaining segment is a
`Globstar`; and a `Wildcard` segment succeeds only by consuming one or more
non-`/` input characters (there is no zero-length option). -/
theorem claim_C7 :
    (∀ (input : List Char) (ii : Nat) (segs : List GlobSegment) (si : Nat),
        input.length ≤ ii → si < segs.length →
          (match_segments_with_memo input ii segs si []).1
            = (segs.drop si).all isGlobstar)
    ∧ (∀ (input : List Char) (ii : Nat) (segs : List GlobSegment) (si : Nat),
        segs[si]? = some GlobSegment.Wildcard → ii < input.length →
          ((match_segments_with_memo input ii segs si []).1 = true ↔
            ∃ n, 1 ≤ n ∧ ii + n ≤ input.length
              ∧ (∀ m, m < n → ¬ input[ii + m]? = some '/')
              ∧ (match_segments_with_memo input (ii + n) segs (si + 1) []).1 = true)) := by
  constructor
  · intro input ii segs si h1 h2
    rw [(msm_correct input segs ii si [] (memoSound_nil input segs)).1]
    exact msp_inp_done (by omega) h1
  · intro input ii segs si hget hlt
    have hseg : ¬ segs.length ≤ si := by
      intro hc
      rw [List.getElem?_eq_none hc] at hget
      simp at hget
    rw [(msm_correct input segs ii si [] (memoSound_nil input segs)).1,
      msp_wild hseg (by omega) hget, plain_wildcard_loop_iff]
    apply exists_congr
    intro n
    constructor
    · rintro ⟨a, b, c, d⟩
      exact ⟨a, b, c, by
        rw [(msm_correct input segs (ii + n) (si + 1) [] (memoSound_nil input segs)).1]
        exact d⟩
    · rintro ⟨a, b, c, d⟩
      refine ⟨a, b, c, ?_⟩
      rw [(msm_correct input segs (ii + n) (si + 1) [] (memoSound_nil input segs)).1] at d
      exact d

/-- Witness for C7: the exhausted-input rule at a position with only a
globstar remaining, and the wildcard characterization at position `(0, 0)`
on a concrete input. -/
theorem claim_C7_witness :
    ((match_segments_with_memo "a".toList 1
        [GlobSegment.Wildcard, GlobSegment.Globstar] 1 []).1
      = (([GlobSegment.Wildcard, GlobSegment.Globstar].drop 1).all isGlobstar))
    ∧ ((match_segments_with_memo "ab".toList 0 [GlobSegment.Wildcard] 0 []).1 = true ↔
        ∃ n, 1 ≤ n ∧ 0 + n ≤ "ab".toList.length
          ∧ (∀ m, m < n → ¬ "ab".toList[0 + m]? = some '/')
          ∧ (match_segments_with_memo "ab".toList (0 + n) [GlobSegment.Wildcard] 1 []).1
              = true) :=
  ⟨claim_C7.1 "a".toList 1 [GlobSegment.Wildcard, GlobSegment.Globstar] 1
      (by decide) (by decide),
   claim_C7.2 "ab".toList 0 [GlobSegment.Wildcard] 0 (by decide) (by decide)⟩

/-- Claim C1: intermediate-directory rule for a single globstar: the three
behavioral facts from the spec, plus the general rule as implemented: when
the globstar is preceded by a literal `/` (`prev2 = some '/'`), is followed
by `/`, and the remaining pattern starts with `*` and contains a `.`
(the extension-glob shape), the zero-length globstar attempt is skipped and
only the slash-scanning loop runs, so an intermediate directory is
required. -/
theorem claim_C1 :
    is_match "src/main.js".toList "src/**/*.js".toList = false
    ∧ is_match "src/lib/main.js".toList "src/**/*.js".toList = true
    ∧ is_match "src/main.js".toList "src/**/main.js".toList = true
    ∧ (∀ (inp np : List Char), np.head? = some '*' → np.contains '.' = true →
        match_globstar inp ('/' :: np) (some '/') = gs_slash_loop false inp np) := by
  refine ⟨?_, ?_, ?_, ?_⟩
  · simp +decide [is_match, match_pattern, star_loop, match_globstar, gs_slash_loop,
      gs_any_loop, match_character_class, containsDoubleSlash, has_multiple_globstars,
      hmgAux, needs_intermediate_directory, has_multiple_path_components_after_globstar,
      findClass, is_char_in_class]
  · simp +decide [is_match, match_pattern, star_loop, match_globstar, gs_slash_loop,
      gs_any_loop, match_character_class, containsDoubleSlash, has_multiple_globstars,
      hmgAux, needs_intermediate_directory, has_multiple_path_components_after_globstar,
      findClass, is_char_in_class]
  · simp +decide [is_match, match_pattern, star_loop, match_globstar, gs_slash_loop,
      gs_any_loop, match_character_class, containsDoubleSlash, has_multiple_globstars,
      hmgAux, needs_intermediate_directory, has_multiple_path_components_after_globstar,
      findClass, is_char_in_class]
  · intro inp np h1 h2
    cases np with
    | nil => simp at h1
    | cons a t =>
      rw [List.head?_cons, Option.some.injEq] at h1
      subst h1
      have hs : (needs_intermediate_directory (some '/') ('*' :: t)
          && has_multiple_path_components_after_globstar ('*' :: t)) = true := h2
      conv_lhs => unfold match_globstar
      simp [hs]

/-- Witness for C1's general rule at the pattern suffix of `src/**/*.js`. -/
theorem claim_C1_witness :
    match_globstar "main.js".toList ('/' :: "*.js".toList) (some '/')
      = gs_slash_loop false "main.js".toList "*.js".toList :=
  claim_C1.2.2.2 "main.js".toList "*.js".toList (by decide) (by decide)

/-- Counterexample to C2 as stated: `x` is a single character other than `/`,
so under the claim `?` must match it; but `**/**/?` contains two globstars,
is routed to the segment-based matcher, whose parser turns `?` into a
`Literal` segment, and the match fails. -/
theorem claim_C2_counterexample : is_match "x".toList "**/**/?".toList = false := by
  simp +decide [is_match, containsDoubleSlash, has_multiple_globstars, hmgAux,
    parse_glob_segments, skipSlash, flushLit, findClass, match_with_segments,
    match_segments_with_memo, match_segments_recursive_optimized, seg_wildcard_loop,
    seg_globstar_loop, List.lookup, matches_char_class, is_char_in_class]

/-- Claim C2 (amended): `?` acts as a one-character non-`/` wildcard in the
direct matcher (used for patterns with fewer than two globstars); in
patterns routed to the segment-based memoized matcher, `?` is accumulated
into a literal run by the segment parser and therefore matches only a
literal `?` character. -/
theorem claim_C2 :
    (∀ (ps : List Char) (prev : Option Char) (c : Char) (cs : List Char),
        match_pattern (c :: cs) ('?' :: ps) prev
          = if c ≠ '/' then match_pattern cs ps (some '?') else false)
    ∧ (∀ (ps : List Char) (prev : Option Char),
        match_pattern [] ('?' :: ps) prev = false)
    ∧ (∀ (rest acc : List Char),
        parse_glob_segments ('?' :: rest) acc = parse_glob_segments rest (acc ++ ['?']))
    ∧ is_match "?".toList "**/**/?".toList = true := by
  refine ⟨?_, ?_, ?_, ?_⟩
  · intro ps prev c cs
    simp only [match_pattern]
  · intro ps prev
    unfold match_pattern
    simp +decide
  · intro rest acc
    simp +decide [parse_glob_segments]
  · simp +decide [is_match, containsDoubleSlash, has_multiple_globstars, hmgAux,
      parse_glob_segments, skipSlash, flushLit, findClass, match_with_segments,
      match_segments_with_memo, match_segments_recursive_optimized, seg_wildcard_loop,
      seg_globstar_loop, List.lookup, matches_char_class, is_char_in_class]

theorem findClass_eq_none {l : List Char} : findClass l = none ↔ ']' ∉ l := by
  induction l with
  | nil => simp [findClass]
  | cons x xs ih =>
    by_cases hx : x = ']'
    · subst hx; simp [findClass]
    · simp [findClass, hx, Option.map_eq_none', ih, List.mem_cons, Ne.symm hx]

theorem matches_char_class_unterminated (ch : Char) (rest : List Char)
    (h : ']' ∉ rest) : matches_char_class ch ('[' :: rest) = false := by
  have hgl : ¬ ('[' :: rest).getLast? = some ']' := by
    intro hc
    rw [List.getLast?_eq_some_iff] at hc
    obtain ⟨ys, hys⟩ := hc
    have hmem : (']' : Char) ∈ '[' :: rest := by rw [hys]; simp
    rcases List.mem_cons.mp hmem with h1 | h2
    · exact absurd h1 (by decide)
    · exact h h2
  simp [matches_char_class, hgl]

theorem mcc_none {c : Char} {cs ps : List Char} (hfc : findClass ps = none) :
    match_character_class (c :: cs) ps
      = if c = '[' then match_pattern cs ps (some '[') else false := by
  unfold match_character_class
  split
  · rfl
  · rename_i content rest heq
    rw [hfc] at heq
    cases heq

/-- Claim C3 (amended): in the direct matcher (patterns with fewer than two
globstars), an opening `[` with no later `]` is matched as an ordinary
literal `[` character; in the segment-based matcher, the malformed class
becomes a `CharClass` segment with no closing `]`, which matches no
character at all. -/
theorem claim_C3 :
    (∀ (ps : List Char) (prev : Option Char), ']' ∉ ps →
        match_pattern [] ('[' :: ps) prev = false
        ∧ ∀ (c : Char) (cs : List Char),
            match_pattern (c :: cs) ('[' :: ps) prev
              = if c = '[' then match_pattern cs ps (some '[') else false)
    ∧ (∀ (ch : Char) (rest : List Char), ']' ∉ rest →
        matches_char_class ch ('[' :: rest) = false)
    ∧ is_match "[abc".toList "[abc".toList = true := by
  refine ⟨?_, matches_char_class_unterminated, ?_⟩
  · intro ps prev h
    have hfc : findClass ps = none := findClass_eq_none.mpr h
    constructor
    · unfold match_pattern
      simp +decide
    · intro c cs
      have e1 : match_pattern (c :: cs) ('[' :: ps) prev
          = match_character_class (c :: cs) ps := by
        simp only [match_pattern]
      rw [e1, mcc_none hfc]
  · simp +decide [is_match, match_pattern, star_loop, match_globstar, gs_slash_loop,
      gs_any_loop, match_character_class, containsDoubleSlash, has_multiple_globstars,
      hmgAux, findClass, is_char_in_class]

/-- Counterexample to C3 as stated: in the pattern `**/**/[ab` (routed to
the segment-based matcher), the unterminated `[` is not matched as a literal
`[`: the input `[ab` fails, although it would match if `[ab` were read
literally (the two globstars can match zero characters). -/
theorem claim_C3_counterexample : is_match "[ab".toList "**/**/[ab".toList = false := by
  simp +decide [is_match, containsDoubleSlash, has_multiple_globstars, hmgAux,
    parse_glob_segments, skipSlash, flushLit, findClass, match_with_segments,
    match_segments_with_memo, match_segments_recursive_optimized, seg_wildcard_loop,
    seg_globstar_loop, List.lookup, matches_char_class, is_char_in_class]

/-- Witness for C3 (amended) at a concrete unterminated class `[ab`. -/
theorem claim_C3_witness :
    (match_pattern ['['] ('[' :: "ab".toList) none
        = if '[' = '[' then match_pattern [] "ab".toList (some '[') else false)
    ∧ matches_char_class 'x' ('[' :: "ab".toList) = false :=
  ⟨(claim_C3.1 "ab".toList none (by decide)).2 '[' [],
   claim_C3.2.1 'x' "ab".toList (by decide)⟩
